import Mathlib

/-!
Shallow embedding of the stock-scribe-tracker portfolio arithmetic
(`src/lib/db.ts`) and the currency-conversion helpers
(`src/pages/Transactions.tsx`, `src/pages/Portfolio.tsx`).

Modelling choices:
* JavaScript numbers are modelled as `ℚ` (the program only adds, subtracts,
  multiplies and divides; all claim inputs are exact decimals).  Division by
  zero yields the junk value `0` in `ℚ`; every theorem below that depends on a
  quotient carries the positivity hypothesis that makes the divisor non-zero.
* `Date` values are modelled by their `getTime()` millisecond timestamp as a
  `Nat` (post-epoch dates).
* JavaScript `Array.prototype.sort` is stable (TimSort); we model it with
  `List.insertionSort`, which is also stable, hence produces the same output
  for the comparators used here.
* A JS object keyed by numbers enumerates `Object.values` in ascending key
  order; one keyed by non-index strings enumerates in insertion order.  The
  embeddings keep association lists in insertion order and apply the final
  orderings explicitly.
-/

namespace StockScribe

/-- The `type` field of a transaction: `'buy' | 'sell'`. -/
inductive TxType where
  | buy : TxType
  | sell : TxType
deriving DecidableEq

/-- Record `Transaction` from `db.ts` (the fields the algorithms read). -/
structure Transaction where
  stockId : Nat
  userId : Nat
  type : TxType
  shares : ℚ
  price : ℚ
  date : Nat
deriving DecidableEq

/-- Record `Stock` from `db.ts`. -/
structure Stock where
  id : Nat
  ticker : String
  currency : String
  userId : Nat
deriving DecidableEq

/-! ## calculateProfitLoss (db.ts lines 133-157) -/

/-- Comparator used at `db.ts:145`: sort buys ascending by `date.getTime()`. -/
def dateLe (a b : Transaction) : Prop := a.date ≤ b.date

instance : DecidableRel dateLe := fun a b => Nat.decLe a.date b.date

instance : IsTotal Transaction dateLe := ⟨fun a b => Nat.le_total a.date b.date⟩

instance : IsTrans Transaction dateLe := ⟨fun _ _ _ h h2 => Nat.le_trans h h2⟩

/-- The `for (const buyTx of buyTransactions)` loop of `calculateProfitLoss`
(db.ts lines 147-153): state is `(remainingShares, costBasis)`; the loop
breaks as soon as `remainingShares <= 0`. -/
def consumeLots : List Transaction → ℚ → ℚ → ℚ × ℚ
  | [], remainingShares, costBasis => (remainingShares, costBasis)
  | buyTx :: rest, remainingShares, costBasis =>
    if remainingShares ≤ 0 then (remainingShares, costBasis)
    else
      consumeLots rest (remainingShares - min buyTx.shares remainingShares)
        (costBasis + min buyTx.shares remainingShares * buyTx.price)

/-- The prior-lot filter at `db.ts:143-144`: buys of the same stock. -/
def buysOf (tx : Transaction) (previousTransactions : List Transaction) :
    List Transaction :=
  previousTransactions.filter
    (fun t => t.stockId == tx.stockId && t.type == TxType.buy)

/-- Function `calculateProfitLoss` (db.ts lines 133-157): FIFO realized profit/loss of
a sell against the prior buy lots of the same stock, oldest first. -/
def calculateProfitLoss (transaction : Transaction)
    (previousTransactions : List Transaction) : ℚ :=
  if transaction.type = TxType.buy then 0
  else
    let buyTransactions :=
      List.insertionSort dateLe (buysOf transaction previousTransactions)
    let res := consumeLots buyTransactions transaction.shares 0
    transaction.shares * transaction.price - res.2

/-! ## getPortfolioSummary (db.ts lines 220-275) -/

/-- One value of the `portfolioItems` record in `getPortfolioSummary`. -/
structure PortfolioItem where
  stock : Stock
  shares : ℚ
  averageCost : ℚ
  totalCost : ℚ
  profitLoss : ℚ
deriving DecidableEq

/-- The zero-initialised item created at `db.ts:240-246`. -/
def initItem (stock : Stock) : PortfolioItem :=
  { stock := stock, shares := 0, averageCost := 0, totalCost := 0,
    profitLoss := 0 }

/-- The per-transaction update of a holding (db.ts lines 251-271): a buy
re-blends the weighted average cost; a sell realizes P/L at the current
average cost and zeroes the cost bases when shares fall to 0 or below. -/
def applyTransaction (item : PortfolioItem) (tx : Transaction) :
    PortfolioItem :=
  if tx.type = TxType.buy then
    { item with
      totalCost := item.totalCost + tx.price * tx.shares,
      shares := item.shares + tx.shares,
      averageCost := (item.totalCost + tx.price * tx.shares) /
        (item.shares + tx.shares) }
  else
    let newShares := item.shares - tx.shares
    let newPL := item.profitLoss + (tx.price * tx.shares -
      item.averageCost * tx.shares)
    if newShares > 0 then
      { item with
        shares := newShares,
        profitLoss := newPL,
        totalCost := item.averageCost * newShares }
    else
      { item with
        shares := newShares,
        profitLoss := newPL,
        totalCost := 0,
        averageCost := 0 }

/-- One iteration of the `for (const tx of transactions)` loop of
`getPortfolioSummary` (db.ts lines 234-272): skip transactions whose
`stockId` is falsy or not in the stock map, create the item on first sight,
then update it. -/
def summaryStep (stocks : List Stock) (items : List PortfolioItem)
    (tx : Transaction) : List PortfolioItem :=
  if tx.stockId = 0 then items
  else
    match stocks.find? (fun s => s.id == tx.stockId) with
    | none => items
    | some stock =>
      let items2 :=
        if items.any (fun it => it.stock.id == tx.stockId) then items
        else items ++ [initItem stock]
      items2.map
        (fun it => if it.stock.id == tx.stockId then applyTransaction it tx
          else it)

/-- Ordering of `Object.values(portfolioItems)`: ascending numeric key. -/
def itemIdLe (a b : PortfolioItem) : Prop := a.stock.id ≤ b.stock.id

instance : DecidableRel itemIdLe := fun a b => Nat.decLe a.stock.id b.stock.id

/-- Function `getPortfolioSummary` (db.ts lines 220-275) applied to the user's stocks
and the user's transactions in store-retrieval order. -/
def getPortfolioSummary (stocks : List Stock)
    (transactions : List Transaction) : List PortfolioItem :=
  List.insertionSort itemIdLe (transactions.foldl (summaryStep stocks) [])

/-! ## convertCurrency (Transactions.tsx lines 112-118; the same formula is
inlined in Portfolio.tsx lines 54-66) -/

/-- The `exchangeRates` lookup object, as an association list
`code ↦ exchangeRate` (Transactions.tsx lines 42-46). -/
def ratesLookup (rates : List (String × ℚ)) (code : String) : Option ℚ :=
  (rates.find? (fun p => p.1 == code)).map Prod.snd

/-- JavaScript `exchangeRates[code] || 1`: an absent key yields `undefined`
and a stored rate of `0` is falsy, so both fall back to `1`. -/
def orOne : Option ℚ → ℚ
  | none => 1
  | some r => if r = 0 then 1 else r

/-- Function `convertCurrency` (Transactions.tsx lines 112-118).  The component closes
over `defaultCurrency`; here it is the explicit `toCurrency` argument. -/
def convertCurrency (rates : List (String × ℚ)) (amount : ℚ)
    (fromCurrency toCurrency : String) : ℚ :=
  if fromCurrency = toCurrency then amount
  else
    amount * (orOne (ratesLookup rates toCurrency) /
      orOne (ratesLookup rates fromCurrency))

/-- The rate function as the spec phrases it: the stored rate, and `1` only
for a code absent from the table. -/
def specRate (rates : List (String × ℚ)) (code : String) : ℚ :=
  (ratesLookup rates code).getD 1

/-! ## Spec-side FIFO cost basis (spec §4.3 step 3b), for the refinement
claim about `calculateProfitLoss`. -/

/-- The spec's wording: walk the date-sorted buy lots `(shares, price)`
oldest first, consuming shares while any are still needed, accumulating
`min(remainingNeeded, lot.shares) × lot.price`. -/
def fifoCostBasis : List (ℚ × ℚ) → ℚ → ℚ
  | [], _ => 0
  | lot :: rest, needed =>
    if needed ≤ 0 then 0
    else min needed lot.1 * lot.2 + fifoCostBasis rest (needed - min needed lot.1)

/-- The date-sorted buy lots of a sell, as `(shares, price)` pairs. -/
def fifoLots (tx : Transaction) (previousTransactions : List Transaction) :
    List (ℚ × ℚ) :=
  (List.insertionSort dateLe (buysOf tx previousTransactions)).map
    (fun t => (t.shares, t.price))

/-! ## getProfitLossReport (db.ts lines 277-372) -/

/-- Lexicographic comparison of character lists by code point, the order
`localeCompare` induces on ISO date strings. -/
def lexLe : List Char → List Char → Bool
  | [], _ => true
  | _ :: _, [] => false
  | a :: as, b :: bs =>
    if a.toNat < b.toNat then true
    else if b.toNat < a.toNat then false
    else lexLe as bs

/-- String comparison used by the `daily.sort` comparator (db.ts:369). -/
def strLe (a b : String) : Bool := lexLe a.data b.data

/-- Left-pad a numeral to two digits, as in ISO date components. -/
def pad2 (n : Nat) : String :=
  if n < 10 then "0" ++ toString n else toString n

/-- Left-pad a numeral to four digits, as in ISO years. -/
def pad4 (n : Nat) : String :=
  if n < 10 then "000" ++ toString n
  else if n < 100 then "00" ++ toString n
  else if n < 1000 then "0" ++ toString n
  else toString n

/-- Gregorian civil date `(year, month, day)` from a day count since the
Unix epoch (standard era decomposition, valid for post-epoch days). -/
def civilFromDays (z : Nat) : Nat × Nat × Nat :=
  let z2 := z + 719468
  let era := z2 / 146097
  let doe := z2 % 146097
  let yoe := (doe - doe / 1460 + doe / 36524 - doe / 146097) / 365
  let y := yoe + era * 400
  let doy := doe - (365 * yoe + yoe / 4 - yoe / 100)
  let mp := (5 * doy + 2) / 153
  let d := doy - (153 * mp + 2) / 5 + 1
  let m := if mp < 10 then mp + 3 else mp - 9
  (if m ≤ 2 then y + 1 else y, m, d)

/-- Model of `tx.date.toISOString().split('T')[0]` (db.ts:338): the UTC calendar date
of a millisecond timestamp as a `YYYY-MM-DD` string. -/
def toISODateStr (ms : Nat) : String :=
  let c := civilFromDays (ms / 86400000)
  pad4 c.1 ++ "-" ++ pad2 c.2.1 ++ "-" ++ pad2 c.2.2

/-- One value of the `dailyProfitLoss` record (db.ts lines 299-304). -/
structure DailyEntry where
  date : String
  profit : ℚ
  loss : ℚ
  net : ℚ
deriving DecidableEq

/-- One value of the `stockProfitLoss` record (db.ts lines 307-312). -/
structure StockEntry where
  stock : Stock
  profit : ℚ
  loss : ℚ
  net : ℚ
deriving DecidableEq

/-- Update `if (profitLoss > 0) profit += pl else loss += |pl|; net += pl`
(db.ts lines 350-355 and 359-364). -/
def addDailyPL (e : DailyEntry) (pl : ℚ) : DailyEntry :=
  { e with
    profit := e.profit + (if 0 < pl then pl else 0),
    loss := e.loss + (if 0 < pl then 0 else |pl|),
    net := e.net + pl }

/-- The same bucket update for a per-stock entry. -/
def addStockPL (e : StockEntry) (pl : ℚ) : StockEntry :=
  { e with
    profit := e.profit + (if 0 < pl then pl else 0),
    loss := e.loss + (if 0 < pl then 0 else |pl|),
    net := e.net + pl }

/-- Create-on-first-sight update of the `dailyProfitLoss` record
(db.ts lines 341-355); string keys enumerate in insertion order. -/
def updateDaily (daily : List DailyEntry) (dateStr : String) (pl : ℚ) :
    List DailyEntry :=
  if daily.any (fun e => e.date == dateStr) then
    daily.map (fun e => if e.date == dateStr then addDailyPL e pl else e)
  else
    daily ++ [addDailyPL { date := dateStr, profit := 0, loss := 0, net := 0 } pl]

/-- One iteration of the report loop (db.ts lines 327-366): skip non-sells,
recompute the FIFO realized P/L against all strictly earlier transactions of
the stock, then bucket it by day and by stock.  `allTxs` is the whole
transaction store, queried again inside the loop (db.ts lines 331-335). -/
def reportStep (allTxs : List Transaction)
    (acc : List DailyEntry × List StockEntry) (tx : Transaction) :
    List DailyEntry × List StockEntry :=
  if tx.type = TxType.sell then
    let previousTxs :=
      allTxs.filter (fun t => t.stockId == tx.stockId && decide (t.date < tx.date))
    let profitLoss := calculateProfitLoss tx previousTxs
    let daily := updateDaily acc.1 (toISODateStr tx.date) profitLoss
    let stocksAcc :=
      if tx.stockId ≠ 0 then
        acc.2.map (fun e => if e.stock.id == tx.stockId then addStockPL e profitLoss
          else e)
      else acc.2
    (daily, stocksAcc)
  else acc

/-- Comparator of `daily.sort((a, b) => a.date.localeCompare(b.date))`
(db.ts:369). -/
def dailyLe (a b : DailyEntry) : Prop := strLe a.date b.date = true

instance : DecidableRel dailyLe :=
  fun a b => instDecidableEqBool (strLe a.date b.date) true

/-- Comparator of `stocks.sort((a, b) => b.net - a.net)` (db.ts:370):
descending by `net`. -/
def netGe (a b : StockEntry) : Prop := b.net ≤ a.net

instance : DecidableRel netGe := fun a b => Rat.instDecidableLe b.net a.net

instance : IsTotal StockEntry netGe := ⟨fun a b => le_total b.net a.net⟩

instance : IsTrans StockEntry netGe := ⟨fun _ _ _ h h2 => le_trans h2 h⟩

/-- Function `getProfitLossReport` (db.ts lines 277-372).  `allTxs` stands for the
whole transaction store; the date-range filter (db.ts lines 281-288) and the
per-stock initialisation guarded by `if (stock.id)` (db.ts lines 315-324)
are applied first, then each sell is bucketed and both outputs sorted. -/
def getProfitLossReport (allTxs : List Transaction) (stocks : List Stock)
    (userId : Nat) (startDate endDate : Nat) :
    List DailyEntry × List StockEntry :=
  let transactions :=
    allTxs.filter (fun tx => tx.userId == userId &&
      decide (startDate ≤ tx.date) && decide (tx.date ≤ endDate))
  let stockInit :=
    (stocks.filter (fun s => s.id != 0)).map
      (fun s => { stock := s, profit := 0, loss := 0, net := 0 : StockEntry })
  let res := transactions.foldl (reportStep allTxs) ([], stockInit)
  (List.insertionSort dailyLe res.1, List.insertionSort netGe res.2)

/-! ## Concrete inputs used by the scenario claims and the witnesses -/

/-- Sum of the `shares` fields of a transaction list. -/
def sumShares (l : List Transaction) : ℚ := (l.map (fun t => t.shares)).sum

/-- Sum of `shares × price` over a transaction list: the total cost of the
lots. -/
def totalBuyCost (l : List Transaction) : ℚ :=
  (l.map (fun t => t.shares * t.price)).sum

/-- The single stock of the spec scenario. -/
def aapl : Stock := { id := 1, ticker := "AAPL", currency := "USD", userId := 1 }

/-- Scenario transaction: buy 10 shares at 100 on 2024-01-01. -/
def t1 : Transaction :=
  { stockId := 1, userId := 1, type := TxType.buy, shares := 10, price := 100,
    date := 1704067200000 }

/-- Scenario transaction: buy 10 shares at 120 on 2024-02-01. -/
def t2 : Transaction :=
  { stockId := 1, userId := 1, type := TxType.buy, shares := 10, price := 120,
    date := 1706745600000 }

/-- Scenario transaction: sell 15 shares at 150 on 2024-03-01. -/
def t3 : Transaction :=
  { stockId := 1, userId := 1, type := TxType.sell, shares := 15, price := 150,
    date := 1709251200000 }

/-- Oversell scenario: buy 5 shares at 100. -/
def b5 : Transaction :=
  { stockId := 1, userId := 1, type := TxType.buy, shares := 5, price := 100,
    date := 1704067200000 }

/-- Oversell scenario: sell 10 shares at 100 while holding only 5. -/
def s10 : Transaction :=
  { stockId := 1, userId := 1, type := TxType.sell, shares := 10, price := 100,
    date := 1706745600000 }

/-- A holding of 5 shares at average cost 100, for the oversell witness. -/
def itemW : PortfolioItem :=
  { stock := aapl, shares := 5, averageCost := 100, totalCost := 500,
    profitLoss := 0 }

/-- Insufficient-lots scenario: sell 10 shares at 50 with only 3 bought. -/
def txW4 : Transaction :=
  { stockId := 1, userId := 1, type := TxType.sell, shares := 10, price := 50,
    date := 1709251200000 }

/-- Insufficient-lots scenario: the only prior lot, buy 3 shares at 100. -/
def b3 : Transaction :=
  { stockId := 1, userId := 1, type := TxType.buy, shares := 3, price := 100,
    date := 1704067200000 }

/-- A concrete exchange-rate table with integral rates. -/
def ratesW : List (String × ℚ) := [(("USD" : String), 2), (("EUR" : String), 4)]

/-- The US dollar currency code. -/
def usd : String := "USD"

/-- The euro currency code. -/
def eur : String := "EUR"

/-! ## Helper lemmas -/

theorem consumeLots_snd (lots : List Transaction) (rem cb : ℚ) :
    (consumeLots lots rem cb).2 =
      cb + fifoCostBasis (lots.map (fun t => (t.shares, t.price))) rem := by
  induction lots generalizing rem cb with
  | nil => simp [consumeLots, fifoCostBasis]
  | cons l ls ih =>
    by_cases h : rem ≤ 0
    · simp [consumeLots, fifoCostBasis, h]
    · simp only [consumeLots, fifoCostBasis, List.map_cons, if_neg h, ih]
      rw [min_comm l.shares rem]
      ring

theorem consumeLots_consume_all (lots : List Transaction) (rem cb : ℚ)
    (hnn : ∀ t ∈ lots, 0 ≤ t.shares) (hlt : sumShares lots < rem) :
    (consumeLots lots rem cb).2 = cb + totalBuyCost lots := by
  induction lots generalizing rem cb with
  | nil => simp [consumeLots, totalBuyCost]
  | cons l ls ih =>
    have hl : 0 ≤ l.shares := hnn l (List.mem_cons_self l ls)
    have hls : 0 ≤ sumShares ls :=
      List.sum_nonneg (by
        intro x hx
        rcases List.mem_map.mp hx with ⟨t, ht, rfl⟩
        exact hnn t (List.mem_cons_of_mem l ht))
    have hsum : sumShares (l :: ls) = l.shares + sumShares ls := by
      simp [sumShares]
    have hrem : l.shares + sumShares ls < rem := by rw [← hsum]; exact hlt
    have h0 : ¬ rem ≤ 0 := by push_neg; linarith
    have hmin : min l.shares rem = l.shares :=
      min_eq_left (by linarith)
    simp only [consumeLots, if_neg h0, hmin]
    rw [ih (rem - l.shares) _ (fun t ht => hnn t (List.mem_cons_of_mem l ht))
      (by linarith)]
    simp [totalBuyCost]
    ring

theorem buysOf_idem (tx : Transaction) (P : List Transaction) :
    buysOf tx (buysOf tx P) = buysOf tx P := by
  simp [buysOf, List.filter_filter]

/-! ## Claims -/

/-- C2: `calculateProfitLoss` on a sell equals revenue minus the spec's
strict-FIFO cost basis of the date-sorted prior buy lots, and on the P5
instance — lots (10 @ 100, day 1), (10 @ 120, day 2), sell 15 @ 150 —
it returns 650. -/
theorem claim_C2 :
    (∀ (tx : Transaction) (P : List Transaction), tx.type = TxType.sell →
      calculateProfitLoss tx P =
        tx.shares * tx.price - fifoCostBasis (fifoLots tx P) tx.shares) ∧
    calculateProfitLoss t3 [t1, t2] = 650 := by
  constructor
  · intro tx P hsell
    have hnb : ¬ tx.type = TxType.buy := by rw [hsell]; exact fun h => nomatch h
    simp only [calculateProfitLoss, if_neg hnb, fifoLots]
    rw [consumeLots_snd]
    ring
  · norm_num [calculateProfitLoss, buysOf, consumeLots, t1, t2, t3,
      List.insertionSort, List.orderedInsert, dateLe, List.filter]
    decide

/-- Witness for C2: the FIFO refinement applied to the concrete sell `t3`
against the prior lots `[t1, t2]`. -/
theorem claim_C2_witness :
    calculateProfitLoss t3 [t1, t2] =
      t3.shares * t3.price - fifoCostBasis (fifoLots t3 [t1, t2]) t3.shares :=
  claim_C2.1 t3 [t1, t2] rfl

/-- C6: with all stored rates non-zero (the app validates rates as positive
before storing them), converting between two distinct codes multiplies by
the quotient of the looked-up rates, an absent code falling back to rate 1. -/
theorem claim_C6 (rates : List (String × ℚ)) (amount : ℚ)
    (fromC toC : String) (hne : fromC ≠ toC)
    (hr : ∀ p ∈ rates, p.2 ≠ 0) :
    convertCurrency rates amount fromC toC =
      amount * (specRate rates toC / specRate rates fromC) := by
  have key : ∀ c, orOne (ratesLookup rates c) = specRate rates c := by
    intro c
    unfold specRate ratesLookup orOne
    cases hfind : rates.find? (fun p => p.1 == c) with
    | none => simp
    | some p =>
      have hp : p ∈ rates := List.mem_of_find?_eq_some hfind
      simp [hr p hp]
  simp [convertCurrency, if_neg hne, key]

/-- Witness for C6: converting 10 from USD (rate 2) to EUR (rate 4). -/
theorem claim_C6_witness :
    convertCurrency ratesW 10 usd eur =
      10 * (specRate ratesW eur / specRate ratesW usd) :=
  claim_C6 ratesW 10 usd eur (by decide) (by decide)

/-- C7: converting between identical currency codes returns the amount
unchanged, whatever the rate table holds. -/
theorem claim_C7 (rates : List (String × ℚ)) (amount : ℚ) (c : String) :
    convertCurrency rates amount c c = amount := by
  simp [convertCurrency]

/-- C10: `calculateProfitLoss` ignores prior sells entirely — filtering the
prior list down to the buy transactions of the sell's stock never changes
the result. -/
theorem claim_C10 (tx : Transaction) (P : List Transaction) :
    calculateProfitLoss tx P = calculateProfitLoss tx (buysOf tx P) := by
  by_cases hb : tx.type = TxType.buy
  · simp [calculateProfitLoss, hb]
  · simp only [calculateProfitLoss, if_neg hb, buysOf_idem]

/-- C1: the spec scenario — buy 10 @ 100, buy 10 @ 120, sell 15 @ 150 on one
stock — gives a single holding with 5 shares, weighted average cost 110,
total cost 550 and realized profit 600. -/
theorem claim_C1 :
    getPortfolioSummary [aapl] [t1, t2, t3] =
      [{ stock := aapl, shares := 5, averageCost := 110, totalCost := 550,
         profitLoss := 600 }] := by
  norm_num [getPortfolioSummary, summaryStep, applyTransaction, initItem,
    aapl, t1, t2, t3, List.insertionSort, List.orderedInsert, itemIdLe]
  decide

/-- C3: a sell is never rejected in `getPortfolioSummary` — the update is
total, the new share count is the old one minus the sold quantity (possibly
negative), and whenever it lands at or below 0 both cost bases are zeroed;
concretely, buy 5 @ 100 then sell 10 @ 100 yields a holding of -5 shares
with `totalCost = 0` and `averageCost = 0`. -/
theorem claim_C3 :
    (∀ (item : PortfolioItem) (tx : Transaction), tx.type = TxType.sell →
      (applyTransaction item tx).shares = item.shares - tx.shares ∧
      ((applyTransaction item tx).shares ≤ 0 →
        (applyTransaction item tx).totalCost = 0 ∧
        (applyTransaction item tx).averageCost = 0)) ∧
    getPortfolioSummary [aapl] [b5, s10] =
      [{ stock := aapl, shares := -5, averageCost := 0, totalCost := 0,
         profitLoss := 0 }] := by
  constructor
  · intro item tx hsell
    have hnb : ¬ tx.type = TxType.buy := by rw [hsell]; exact fun h => nomatch h
    have hshape : (applyTransaction item tx).shares = item.shares - tx.shares := by
      by_cases hpos : item.shares - tx.shares > 0 <;>
        simp [applyTransaction, if_neg hnb, hpos]
    refine ⟨hshape, fun hle => ?_⟩
    have hpos : ¬ item.shares - tx.shares > 0 := by rw [hshape] at hle; linarith
    constructor <;> simp [applyTransaction, if_neg hnb, hpos]
  · norm_num [getPortfolioSummary, summaryStep, applyTransaction, initItem,
      aapl, b5, s10, List.insertionSort, List.orderedInsert, itemIdLe]
    decide

/-- Witness for C3: selling 10 out of a holding of 5 zeroes both cost
bases. -/
theorem claim_C3_witness :
    (applyTransaction itemW s10).totalCost = 0 ∧
    (applyTransaction itemW s10).averageCost = 0 := by
  have h := claim_C3.1 itemW s10 rfl
  exact h.2 (by rw [h.1]; norm_num [itemW, s10])

/-- C4: when the prior buy lots of the sell's stock hold fewer total shares
than the sell, `calculateProfitLoss` consumes every available lot without
error, returning revenue minus the total cost of all prior buy lots. -/
theorem claim_C4 (tx : Transaction) (P : List Transaction)
    (hsell : tx.type = TxType.sell)
    (hnn : ∀ t ∈ buysOf tx P, 0 ≤ t.shares)
    (hlt : sumShares (buysOf tx P) < tx.shares) :
    calculateProfitLoss tx P =
      tx.shares * tx.price - totalBuyCost (buysOf tx P) := by
  have hnb : ¬ tx.type = TxType.buy := by rw [hsell]; exact fun h => nomatch h
  have hperm : (List.insertionSort dateLe (buysOf tx P)).Perm (buysOf tx P) :=
    List.perm_insertionSort dateLe (buysOf tx P)
  have hnn2 : ∀ t ∈ List.insertionSort dateLe (buysOf tx P), 0 ≤ t.shares :=
    fun t ht => hnn t (hperm.mem_iff.mp ht)
  have hsum : sumShares (List.insertionSort dateLe (buysOf tx P)) =
      sumShares (buysOf tx P) := by
    unfold sumShares
    exact (hperm.map (fun t => t.shares)).sum_eq
  have hcost : totalBuyCost (List.insertionSort dateLe (buysOf tx P)) =
      totalBuyCost (buysOf tx P) := by
    unfold totalBuyCost
    exact (hperm.map (fun t => t.shares * t.price)).sum_eq
  simp only [calculateProfitLoss, if_neg hnb]
  rw [consumeLots_consume_all _ _ _ hnn2 (by rw [hsum]; exact hlt), hcost,
    zero_add]

/-- Witness for C4: a sell of 10 shares against a single prior lot of 3
shares at 100 realizes revenue minus the whole lot cost. -/
theorem claim_C4_witness :
    calculateProfitLoss txW4 [b3] =
      txW4.shares * txW4.price - totalBuyCost (buysOf txW4 [b3]) :=
  claim_C4 txW4 [b3] rfl
    (by intro t ht; simp [buysOf, b3, txW4] at ht; rw [ht]; norm_num [b3])
    (by norm_num [sumShares, buysOf, b3, txW4, List.filter])

theorem applyTransaction_stock (item : PortfolioItem) (tx : Transaction) :
    (applyTransaction item tx).stock = item.stock := by
  by_cases hb : tx.type = TxType.buy
  · simp [applyTransaction, hb]
  · by_cases hpos : item.shares - tx.shares > 0 <;>
      simp [applyTransaction, hb, hpos]

theorem applyTransaction_buy (item : PortfolioItem) (tx : Transaction)
    (hb : tx.type = TxType.buy) (h0 : 0 ≤ item.shares) (hs : 0 < tx.shares) :
    0 < (applyTransaction item tx).shares ∧
    (applyTransaction item tx).averageCost =
      (applyTransaction item tx).totalCost /
        (applyTransaction item tx).shares := by
  constructor
  · simp only [applyTransaction, if_pos hb]
    linarith
  · simp [applyTransaction, hb]

theorem foldl_buys_invariant (txs : List Transaction) :
    ∀ item : PortfolioItem,
      (∀ tx ∈ txs, tx.type = TxType.buy ∧ 0 < tx.shares) →
      0 ≤ item.shares → txs ≠ [] →
      0 < (txs.foldl applyTransaction item).shares ∧
      (txs.foldl applyTransaction item).averageCost =
        (txs.foldl applyTransaction item).totalCost /
          (txs.foldl applyTransaction item).shares := by
  induction txs with
  | nil => intro item _ _ hne; exact absurd rfl hne
  | cons t ts ih =>
    intro item hb h0 _
    have ht := hb t (List.mem_cons_self t ts)
    have h1 := applyTransaction_buy item t ht.1 h0 ht.2
    cases ts with
    | nil => simpa using h1
    | cons t2 ts2 =>
      have h2 := ih (applyTransaction item t)
        (fun tx hx => hb tx (List.mem_cons_of_mem t hx))
        (le_of_lt h1.1) (by simp)
      simpa [List.foldl_cons] using h2

theorem summaryStep_nil (s : Stock) (tx : Transaction)
    (hs0 : s.id ≠ 0) (htx : tx.stockId = s.id) :
    summaryStep [s] [] tx = [applyTransaction (initItem s) tx] := by
  simp [summaryStep, htx, hs0, initItem]

theorem summaryStep_singleton (s : Stock) (it : PortfolioItem)
    (tx : Transaction) (hs0 : s.id ≠ 0) (htx : tx.stockId = s.id)
    (hit : it.stock = s) :
    summaryStep [s] [it] tx = [applyTransaction it tx] := by
  simp [summaryStep, htx, hs0, hit]

theorem foldl_summary_singleton (s : Stock) (txs : List Transaction)
    (hs0 : s.id ≠ 0) :
    ∀ it : PortfolioItem, it.stock = s →
      (∀ tx ∈ txs, tx.stockId = s.id) →
      txs.foldl (summaryStep [s]) [it] = [txs.foldl applyTransaction it] := by
  induction txs with
  | nil => intro it _ _; rfl
  | cons t ts ih =>
    intro it hit htx
    rw [List.foldl_cons,
      summaryStep_singleton s it t hs0 (htx t (List.mem_cons_self t ts)) hit,
      List.foldl_cons]
    exact ih (applyTransaction it t)
      (by rw [applyTransaction_stock]; exact hit)
      (fun tx hx => htx tx (List.mem_cons_of_mem t hx))

theorem getPortfolioSummary_single (s : Stock) (txs : List Transaction)
    (hs0 : s.id ≠ 0) (hne : txs ≠ [])
    (htx : ∀ tx ∈ txs, tx.stockId = s.id) :
    getPortfolioSummary [s] txs =
      [txs.foldl applyTransaction (initItem s)] := by
  cases txs with
  | nil => exact absurd rfl hne
  | cons t ts =>
    unfold getPortfolioSummary
    simp only [List.foldl_cons]
    rw [summaryStep_nil s t hs0 (htx t (List.mem_cons_self t ts)),
      foldl_summary_singleton s ts hs0 (applyTransaction (initItem s) t)
        (by rw [applyTransaction_stock]; rfl)
        (fun tx hx => htx tx (List.mem_cons_of_mem t hx))]
    simp [List.insertionSort, List.orderedInsert]

/-- C5: processing a non-empty run of buy transactions of one stock leaves a
holding whose `averageCost` is exactly `totalCost / shares`, with strictly
positive shares throughout (so the quotient's divisor is never zero). -/
theorem claim_C5 (s : Stock) (txs : List Transaction)
    (hs0 : s.id ≠ 0) (hne : txs ≠ [])
    (htx : ∀ tx ∈ txs,
      tx.stockId = s.id ∧ tx.type = TxType.buy ∧ 0 < tx.shares) :
    getPortfolioSummary [s] txs ≠ [] ∧
    ∀ it ∈ getPortfolioSummary [s] txs,
      it.averageCost = it.totalCost / it.shares ∧ 0 < it.shares := by
  have hsum := getPortfolioSummary_single s txs hs0 hne
    (fun tx h => (htx tx h).1)
  have hinv := foldl_buys_invariant txs (initItem s)
    (fun tx h => (htx tx h).2) (by simp [initItem]) hne
  rw [hsum]
  refine ⟨by simp, fun it hit => ?_⟩
  rw [List.mem_singleton] at hit
  subst hit
  exact ⟨hinv.2, hinv.1⟩

/-- Witness for C5: a single buy of 10 shares at 100. -/
theorem claim_C5_witness :
    getPortfolioSummary [aapl] [t1] ≠ [] ∧
    ∀ it ∈ getPortfolioSummary [aapl] [t1],
      it.averageCost = it.totalCost / it.shares ∧ 0 < it.shares :=
  claim_C5 aapl [t1] (by decide) (by simp)
    (by
      intro tx h
      rw [List.mem_singleton] at h
      subst h
      exact ⟨rfl, rfl, by norm_num [t1]⟩)

theorem lexLe_total (a b : List Char) : lexLe a b = true ∨ lexLe b a = true := by
  induction a generalizing b with
  | nil => left; rfl
  | cons x xs ih =>
    cases b with
    | nil => right; rfl
    | cons y ys =>
      by_cases h1 : x.toNat < y.toNat
      · left; simp [lexLe, h1]
      · by_cases h2 : y.toNat < x.toNat
        · right; simp [lexLe, h2]
        · rcases ih ys with h | h
          · left; simp [lexLe, h1, h2, h]
          · right; simp [lexLe, h1, h2, h]

theorem lexLe_trans (a b c : List Char) (hab : lexLe a b = true)
    (hbc : lexLe b c = true) : lexLe a c = true := by
  induction a generalizing b c with
  | nil => rfl
  | cons x xs ih =>
    cases b with
    | nil => exact nomatch hab
    | cons y ys =>
      cases c with
      | nil => exact nomatch hbc
      | cons z zs =>
        simp only [lexLe] at hab hbc ⊢
        by_cases h1 : x.toNat < y.toNat
        · by_cases h2 : y.toNat < z.toNat
          · simp [lt_trans h1 h2]
          · by_cases h3 : z.toNat < y.toNat
            · rw [if_neg h2, if_pos h3] at hbc
              exact nomatch hbc
            · have hxz : x.toNat < z.toNat := by omega
              simp [hxz]
        · by_cases h1b : y.toNat < x.toNat
          · rw [if_neg h1, if_pos h1b] at hab
            exact nomatch hab
          · rw [if_neg h1, if_neg h1b] at hab
            by_cases h2 : y.toNat < z.toNat
            · have hxz : x.toNat < z.toNat := by omega
              simp [hxz]
            · by_cases h3 : z.toNat < y.toNat
              · rw [if_neg h2, if_pos h3] at hbc
                exact nomatch hbc
              · rw [if_neg h2, if_neg h3] at hbc
                have hx : ¬ x.toNat < z.toNat := by omega
                have hz : ¬ z.toNat < x.toNat := by omega
                rw [if_neg hx, if_neg hz]
                exact ih ys zs hab hbc

/-- C8: both components of `getProfitLossReport` come out sorted — the daily
buckets non-decreasing under the string comparison of their date keys, the
per-stock buckets non-increasing by `net`. -/
theorem claim_C8 (allTxs : List Transaction) (stocks : List Stock)
    (userId startDate endDate : Nat) :
    List.Sorted dailyLe
      (getProfitLossReport allTxs stocks userId startDate endDate).1 ∧
    List.Sorted netGe
      (getProfitLossReport allTxs stocks userId startDate endDate).2 := by
  haveI : IsTotal DailyEntry dailyLe :=
    ⟨fun a b => lexLe_total a.date.data b.date.data⟩
  haveI : IsTrans DailyEntry dailyLe :=
    ⟨fun a b c => lexLe_trans a.date.data b.date.data c.date.data⟩
  exact ⟨List.sorted_insertionSort dailyLe _,
    List.sorted_insertionSort netGe _⟩

theorem reportStep_buy (allTxs : List Transaction)
    (acc : List DailyEntry × List StockEntry) (tx : Transaction)
    (h : tx.type = TxType.buy) : reportStep allTxs acc tx = acc := by
  have hns : ¬ tx.type = TxType.sell := by rw [h]; exact fun hh => nomatch hh
  simp [reportStep, hns]

theorem foldl_reportStep_buys (allTxs : List Transaction)
    (l : List Transaction) :
    ∀ acc : List DailyEntry × List StockEntry,
      (∀ tx ∈ l, tx.type = TxType.buy) →
      l.foldl (reportStep allTxs) acc = acc := by
  induction l with
  | nil => intro acc _; rfl
  | cons t ts ih =>
    intro acc h
    rw [List.foldl_cons, reportStep_buy allTxs acc t (h t (List.mem_cons_self t ts))]
    exact ih acc (fun tx hx => h tx (List.mem_cons_of_mem t hx))

/-- C9: over a store of buy transactions only, the report's daily list is
empty and every per-stock bucket is all zeroes; `calculateProfitLoss`
returns 0 on every buy. -/
theorem claim_C9 :
    (∀ (tx : Transaction) (P : List Transaction), tx.type = TxType.buy →
      calculateProfitLoss tx P = 0) ∧
    ∀ (allTxs : List Transaction) (stocks : List Stock)
      (userId startDate endDate : Nat),
      (∀ tx ∈ allTxs, tx.type = TxType.buy) →
      (getProfitLossReport allTxs stocks userId startDate endDate).1 = [] ∧
      ∀ e ∈ (getProfitLossReport allTxs stocks userId startDate endDate).2,
        e.profit = 0 ∧ e.loss = 0 ∧ e.net = 0 := by
  refine ⟨fun tx P h => by simp [calculateProfitLoss, h], ?_⟩
  intro allTxs stocks userId startDate endDate hall
  have hfold := foldl_reportStep_buys allTxs
    (allTxs.filter (fun tx => tx.userId == userId &&
      decide (startDate ≤ tx.date) && decide (tx.date ≤ endDate)))
    ([], (stocks.filter (fun s => s.id != 0)).map
      (fun s => { stock := s, profit := 0, loss := 0, net := 0 : StockEntry }))
    (fun tx hx => hall tx (List.mem_of_mem_filter hx))
  have hrep : getProfitLossReport allTxs stocks userId startDate endDate =
      ([], List.insertionSort netGe
        ((stocks.filter (fun s => s.id != 0)).map
          (fun s => { stock := s, profit := 0, loss := 0, net := 0 : StockEntry }))) := by
    unfold getProfitLossReport
    dsimp only
    rw [hfold]
    rfl
  rw [hrep]
  refine ⟨rfl, fun e he => ?_⟩
  have hmem : e ∈ (stocks.filter (fun s => s.id != 0)).map
      (fun s => { stock := s, profit := 0, loss := 0, net := 0 : StockEntry }) :=
    (List.perm_insertionSort netGe _).mem_iff.mp he
  rcases List.mem_map.mp hmem with ⟨s, _, rfl⟩
  exact ⟨rfl, rfl, rfl⟩

/-- Witness for C9: a store holding the single buy `t1` yields a report with
no daily entries, and `calculateProfitLoss` returns 0 on `t1`. -/
theorem claim_C9_witness :
    calculateProfitLoss t1 [] = 0 ∧
    (getProfitLossReport [t1] [aapl] 1 0 1709251200000).1 = [] :=
  ⟨claim_C9.1 t1 [] rfl,
   (claim_C9.2 [t1] [aapl] 1 0 1709251200000
     (by
       intro tx h
       rw [List.mem_singleton] at h
       subst h
       rfl)).1⟩

end StockScribe
